import Mathlib

/-!
Verification of the client-side data layer of the Photo-Manager file server.

The definitions below are a shallow embedding of the TypeScript source:

* `RootModel.getRoots` / `RootModel.getContentObjects` (src/unnamed/part_007,
  the windowed pagination/search cache) become pure state-passing functions
  over maps from search key to cached entries.  The remote store
  (`loadFiltered`) is a function parameter; an outcome records the produced
  value, the updated cache and whether a remote fetch was issued.
* `promiseChain` (src/unnamed/part_000, lines 130-146) becomes a recursion
  over the item list.  The promise-based callback, which in the source
  settles each step exactly once via `resolve`/`reject`, becomes a function
  into `Except`; the run records the fired progress events, the items whose
  step was invoked, the final `done` counter and the settled result.
* `Album.addFiles` / `Album.updateParents` (src/src/models/Album.ts) are
  embedded over a registry of album states.  The base-class helpers
  `Model.resetData`, `Model.loadIds`, `Model.getById` and `Database.create`
  are not part of the source tree, so they are modelled from the spec where
  noted.
* The `geotag` entry of `FileObject.meta.specialProps`
  (src/unnamed/part_006, lines 27-51) is embedded directly; the base-class
  `Model.addObject` it calls is modelled from the spec.
-/

namespace PhotoManager

/-- One cached contents entry (`{ count; objectIds }` in part_007 line 51):
`objectIds` is the sparse ordered sequence, a slot holding `none` for the
JavaScript `null` "unknown" sentinel. -/
structure ContentsEntry where
  count : Nat
  objectIds : List (Option Nat)
deriving DecidableEq

/-- Structured API error (`{ detail: "Invalid page." }`, part_007 line 89). -/
structure ApiError where
  detail : String
deriving DecidableEq

/-- The value produced by `getContentObjects`: a total count and the ids of
the requested page (part_007 lines 91 and 110). -/
structure ObjectSet where
  count : Nat
  objectIds : List Nat
deriving DecidableEq

/-- Cache of contents entries per search key (`null` key is `none`),
embedding the JavaScript `Map` of part_007 line 51. -/
abbrev ContentsMap : Type := Option String → Option ContentsEntry

/-- Cache of root-object id lists per search key (part_007 line 48). -/
abbrev RootsMap : Type := Option String → Option (List Nat)

/-- The remote `loadFiltered` call issued by `getContentObjects`
(part_007 lines 95-99), abstracted as a function of the (normalised) search
key, page and page size, returning the remote total count and the ids of
the requested page. -/
abbrev LoadContents : Type := Option String → Nat → Nat → Nat × List Nat

/-- `searchQuery = searchQuery || null` (part_007 lines 60 and 84): both a
missing query and the empty string normalise to the `null` key. -/
def normKey : Option String → Option String
  | none => none
  | some s => if s = "" then none else some s

/-- `Map.prototype.set`: point update of a key-value map. -/
def mapSet {β : Type} (m : Option String → Option β) (k : Option String) (v : β) :
    Option String → Option β :=
  fun j => if j = k then some v else m j

/-- `Array.prototype.slice(a, b)` for non-negative in-order bounds. -/
def jsSlice {γ : Type} (a b : Nat) (l : List γ) : List γ :=
  (l.drop a).take (b - a)

/-- `existingContents !== undefined ? existingContents.objectIds :
new Array(contentsData.count).fill(null)` (part_007 line 102). -/
def gcoOldIds (contents : ContentsMap) (key : Option String) (count : Nat) :
    List (Option Nat) :=
  match contents key with
  | some e => e.objectIds
  | none => List.replicate count none

/-- `oldIds.slice(0, (page - 1) * pageSize).concat(newIds.concat(oldIds.slice(page * pageSize)))`
(part_007 line 104): splice the freshly fetched page into the sparse sequence. -/
def mergeIds (oldIds : List (Option Nat)) (newIds : List Nat) (a b : Nat) :
    List (Option Nat) :=
  jsSlice 0 a oldIds ++ newIds.map some ++ oldIds.drop b

/-- Outcome of one `getContentObjects` call: the settled result (`throw`
becomes `Except.error`), the contents cache after the call, and whether a
remote fetch was issued. -/
structure ContentsOutcome where
  result : Except ApiError ObjectSet
  contents : ContentsMap
  fetched : Bool

/-- The "Load from server / Save to stored content" tail of
`getContentObjects` (part_007 lines 94-110). -/
def gcoFetch (load : LoadContents) (contents : ContentsMap) (key : Option String)
    (page pageSize : Nat) : ContentsOutcome :=
  { result := Except.ok
      { count := (load key page pageSize).1, objectIds := (load key page pageSize).2 },
    contents := mapSet contents key
      { count := (load key page pageSize).1,
        objectIds := mergeIds (gcoOldIds contents key (load key page pageSize).1)
          (load key page pageSize).2 ((page - 1) * pageSize) (page * pageSize) },
    fetched := true }

/-- `RootModel.getContentObjects` (part_007 lines 83-111).  Page numbers are
meant to start at 1; the embedding uses `Nat` subtraction, which agrees with
the source for every `page ≥ 1`. -/
def getContentObjects (load : LoadContents) (contents : ContentsMap)
    (page pageSize : Nat) (searchQuery : Option String) : ContentsOutcome :=
  match contents (normKey searchQuery) with
  | some existing =>
    if 0 < existing.count ∧ existing.count ≤ (page - 1) * pageSize then
      { result := Except.error { detail := "Invalid page." },
        contents := contents, fetched := false }
    else if (jsSlice ((page - 1) * pageSize) (page * pageSize) existing.objectIds).all
        Option.isSome then
      { result := Except.ok
          { count := existing.count,
            objectIds := (jsSlice ((page - 1) * pageSize) (page * pageSize)
              existing.objectIds).filterMap id },
        contents := contents, fetched := false }
    else gcoFetch load contents (normKey searchQuery) page pageSize
  | none => gcoFetch load contents (normKey searchQuery) page pageSize

/-- The filter object passed to `loadFiltered` by `getRoots`
(part_007 line 67): the container id under the roots filter param, plus the
search key (absent when the query is falsy, which after normalisation is
exactly the `none` key). -/
structure RootsQuery where
  parentFilter : Nat
  search : Option String
deriving DecidableEq

/-- Outcome of one `getRoots` call. -/
structure RootsOutcome where
  objectIds : List Nat
  roots : RootsMap
  fetched : Bool

/-- `RootModel.getRoots` (part_007 lines 58-74).  Returns `none` for the
source's `null` when the root model has no roots. -/
def getRoots (hasRoots : Bool) (selfId : Nat) (load : RootsQuery → List Nat)
    (roots : RootsMap) (searchQuery : Option String) : Option RootsOutcome :=
  if hasRoots = false then none
  else
    match roots (normKey searchQuery) with
    | some existingRootIds =>
      some { objectIds := existingRootIds, roots := roots, fetched := false }
    | none =>
      some { objectIds := load { parentFilter := selfId, search := normKey searchQuery },
             roots := mapSet roots (normKey searchQuery)
               (load { parentFilter := selfId, search := normKey searchQuery }),
             fetched := true }

/-- A well-formed remote response for one page: the server returns exactly
the requested window of a collection of its reported total size. -/
def wfLoad (load : LoadContents) (key : Option String) (page pageSize : Nat) : Prop :=
  (load key page pageSize).2.length =
    min pageSize ((load key page pageSize).1 - (page - 1) * pageSize)

/-- A cached entry (when present) agrees with the remote count and satisfies
the `ids.length == count` invariant; this is the formal rendering of "no
intervening structural change" for a pre-existing entry. -/
def entryConsistent (cached : Option ContentsEntry) (count : Nat) : Prop :=
  match cached with
  | none => True
  | some e => e.count = count ∧ e.objectIds.length = count

/-! ### The sequential async pipeline (`promiseChain`, part_000 lines 130-153) -/

/-- Payload of a progress event
(`{item, result, doneCount, totalCount}`, part_000 lines 135 and 139). -/
structure ProgressEvent (ι α : Type) where
  item : ι
  result : α
  doneCount : Nat
  totalCount : Nat
deriving DecidableEq

/-- A fired progress event: `onbeforeprogress` or `onafterprogress`. -/
inductive PEvent (ι α : Type) where
  | before : ProgressEvent ι α → PEvent ι α
  | after : ProgressEvent ι α → PEvent ι α
deriving DecidableEq

/-- Everything one run of the pipeline produces: the progress events in
order, the items whose callback was invoked in order, the final value of the
`done` counter, and the settled result of the final promise. -/
structure RunResult (ι α ε : Type) where
  events : List (PEvent ι α)
  invoked : List ι
  doneCount : Nat
  result : Except ε α

/-- `promiseChain` (part_000 lines 130-146), instrumented.  The source
chains one `.then` per item onto `Promise.resolve(result)`: before each step
the before event fires with the current accumulator and `done`; the callback
settles the step, and on `resolve(data)` the counter increments and the
after event fires; on `reject` the chain short-circuits and no later
callback runs. -/
def promiseChainRun {ι α ε : Type} (cb : ι → α → Except ε α) (total : Nat) :
    List ι → α → Nat → RunResult ι α ε
  | [], acc, done => { events := [], invoked := [], doneCount := done, result := Except.ok acc }
  | item :: rest, acc, done =>
    match cb item acc with
    | Except.error e =>
      { events := [PEvent.before { item := item, result := acc, doneCount := done, totalCount := total }],
        invoked := [item], doneCount := done, result := Except.error e }
    | Except.ok data =>
      let tail := promiseChainRun cb total rest data (done + 1)
      { events := PEvent.before { item := item, result := acc, doneCount := done, totalCount := total }
          :: PEvent.after { item := item, result := data, doneCount := done + 1, totalCount := total }
          :: tail.events,
        invoked := item :: tail.invoked,
        doneCount := tail.doneCount,
        result := tail.result }

/-- The settled result of `promiseChain(list, callback, result)`. -/
def promiseChain {ι α ε : Type} (list : List ι) (cb : ι → α → Except ε α) (result : α) :
    Except ε α :=
  (promiseChainRun cb list.length list result 0).result

/-- The payloads delivered to a handler registered with
`.progress(callback, true)` (the before events), in firing order. -/
def beforeEvents {ι α : Type} (evs : List (PEvent ι α)) : List (ProgressEvent ι α) :=
  evs.filterMap fun ev =>
    match ev with
    | PEvent.before e => some e
    | PEvent.after _ => none

/-- The payloads delivered to a handler registered with
`.progress(callback)` (the after events), in firing order. -/
def afterEvents {ι α : Type} (evs : List (PEvent ι α)) : List (ProgressEvent ι α) :=
  evs.filterMap fun ev =>
    match ev with
    | PEvent.before _ => none
    | PEvent.after e => some e

/-! ### Albums (`Album.addFiles` / `Album.updateParents`, src/src/models/Album.ts) -/

/-- Local state of one album: its parent link and its two windowed caches
(the fields `RootModel.roots` / `RootModel.contents` it inherits). -/
structure AlbumState where
  parentID : Option Nat
  roots : RootsMap
  contents : ContentsMap

/-- Modelled from the spec: `Model.resetData` is not under src/; per §3
("Container entity caches are invalidated (cleared) whenever the container's
children are known to have structurally changed") and §4.3 ("clearing each
level"), it clears the instance's cached roots and contents data, leaving
its fields (the parent link) intact. -/
def resetData (a : AlbumState) : AlbumState :=
  { a with roots := fun _ => none, contents := fun _ => none }

/-- The per-type identity map of album instances (`Album.getById`),
modelled from the spec §4.1: `getById` resolves an id to the single live
instance, failing (here `none`) when unregistered. -/
abbrev AlbumReg : Type := Nat → Option AlbumState

/-- Observable remote operations issued by `addFiles`:
`Database.create(DBTables.AlbumFile, { album, file })` (Album.ts line 83)
and the final `Album.loadIds(ids, true)` reload issued by `updateParents`
(Album.ts line 110), both modelled from the spec since `Database` and
`Model.loadIds` are not under src/. -/
inductive AlbumOp where
  | createAlbumFile (albumId fileId : Nat)
  | loadIds (ids : List Nat)
deriving DecidableEq

/-- The `while (current !== null)` walk of `Album.updateParents`
(Album.ts lines 103-109): push the current id, reset its data, and follow
the parent link (`parentID === null ? null : Album.getById(parentID)`).
`fuel` bounds the walk; a cyclic or not-fully-loaded chain yields `none`. -/
def updateParentsLoop (reg : AlbumReg) : Nat → Nat → Option (AlbumReg × List Nat)
  | 0, _ => none
  | fuel + 1, i =>
    match reg i with
    | none => none
    | some a =>
      match a.parentID with
      | none => some (fun j => if j = i then some (resetData a) else reg j, [i])
      | some p =>
        (updateParentsLoop (fun j => if j = i then some (resetData a) else reg j) fuel p).map
          fun r => (r.1, i :: r.2)

/-- `Album.updateParents` (Album.ts lines 102-111): walk and reset the
parent chain, then trigger `Album.loadIds(ids, true)`; the returned id list
is the argument of that reload call. -/
def updateParents (reg : AlbumReg) (selfId fuel : Nat) : Option (AlbumReg × List Nat) :=
  updateParentsLoop reg fuel selfId

/-- `Album.addFiles` (Album.ts lines 92-99): run `addFile(fileId, true)` for
each file through `promiseChain` — each step issues one
`Database.create(AlbumFile, ...)`, recorded in the threaded accumulator —
then call `updateParents` once.  Returns the updated registry and the
ordered list of remote operations issued. -/
def addFiles (reg : AlbumReg) (albumId : Nat) (files : List Nat) (fuel : Nat) :
    Option (AlbumReg × List AlbumOp) :=
  match promiseChain files
      (fun fileId ops =>
        (Except.ok (ops ++ [AlbumOp.createAlbumFile albumId fileId]) : Except ApiError _)) [] with
  | Except.error _ => none
  | Except.ok ops =>
    (updateParents reg albumId fuel).map fun r => (r.1, ops ++ [AlbumOp.loadIds r.2])

/-- Modelled from the spec §4.3: "ancestor invalidation walks the parent
chain to the root" — the pure id list from an album up to its root, when
every link is loaded and the walk ends within `fuel`. -/
def ancestorChain (reg : AlbumReg) : Nat → Nat → Option (List Nat)
  | 0, _ => none
  | fuel + 1, i =>
    match reg i with
    | none => none
    | some a =>
      match a.parentID with
      | none => some [i]
      | some p => (ancestorChain reg fuel p).map fun ids => i :: ids

/-! ### The geotag special property (`FileObject.meta.specialProps.geotag`,
part_006 lines 27-51) -/

/-- A locally stored `GeoTag` instance.  Coordinates are kept abstract in
`κ` (they are floating-point numbers the claims never compute with); fields
a wire record never supplied are `none`. -/
structure GeoTagRec (κ : Type) where
  id : Nat
  latitude : Option κ
  longitude : Option κ
  areaID : Option Nat
  locationModified : Bool
  areaModified : Bool

/-- A geotag value on the wire.  Absent JavaScript object fields are `none`
(for `area`, the inner `Option` is the explicit `null` of a tag without an
area); absent boolean flags are `false`. -/
structure GeotagWire (κ : Type) where
  id : Nat
  latitude : Option κ
  longitude : Option κ
  area : Option (Option Nat)
  locationModified : Bool
  areaModified : Bool

/-- Modelled from the spec §4.1: `Model.addObject` is not under src/ — it
"creates or (if an instance with that id exists) merges into the existing
instance" via the declared props (`id`, `latitude`, `longitude`) and the
`area → areaID` special prop, and returns the instance.  The modification
flags are not declared props and are untouched by a merge. -/
def addObjectGeoTag {κ : Type} (reg : Nat → Option (GeoTagRec κ)) (w : GeotagWire κ) :
    (Nat → Option (GeoTagRec κ)) × GeoTagRec κ :=
  let inst : GeoTagRec κ :=
    match reg w.id with
    | some old =>
      { id := w.id,
        latitude := match w.latitude with | some v => some v | none => old.latitude,
        longitude := match w.longitude with | some v => some v | none => old.longitude,
        areaID := match w.area with | some v => v | none => old.areaID,
        locationModified := old.locationModified,
        areaModified := old.areaModified }
    | none =>
      { id := w.id,
        latitude := w.latitude,
        longitude := w.longitude,
        areaID := match w.area with | some v => v | none => none,
        locationModified := false,
        areaModified := false }
  (fun j => if j = w.id then some inst else reg j, inst)

/-- `file.geotag.locationModified = true` (part_006 line 34): the flag is
set on the registry instance the getter resolves. -/
def setLocationModified {κ : Type} (reg : Nat → Option (GeoTagRec κ)) (gid : Nat) :
    Nat → Option (GeoTagRec κ) :=
  fun j => if j = gid then (reg j).map fun g => { g with locationModified := true } else reg j

/-- `file.geotag.areaModified = true` (part_006 line 35). -/
def setAreaModified {κ : Type} (reg : Nat → Option (GeoTagRec κ)) (gid : Nat) :
    Nat → Option (GeoTagRec κ) :=
  fun j => if j = gid then (reg j).map fun g => { g with areaModified := true } else reg j

/-- `specialProps.geotag.serialize` (part_006 lines 38-48): `null` becomes
an explicit `null` wire value; otherwise the wire object carries the id,
the coordinates only when `locationModified`, and the area id (`null` for a
tag without an area, via the identity-mapped `prop.area` getter) only when
`areaModified`.  The flags themselves are never written to the wire. -/
def serializeGeotag {κ : Type} (prop : Option (GeoTagRec κ)) : Option (GeotagWire κ) :=
  match prop with
  | none => none
  | some g =>
    some { id := g.id,
           latitude := if g.locationModified then g.latitude else none,
           longitude := if g.locationModified then g.longitude else none,
           area := if g.areaModified then some g.areaID else none,
           locationModified := false,
           areaModified := false }

/-- `specialProps.geotag.deserialize` (part_006 lines 29-37): a `null` wire
value stores a `null` id; otherwise `GeoTag.addObject(prop, false).id` is
stored and the modification flags are set on the registry instance when the
wire record carries them.  Returns the updated registry and the stored
`geotagID`. -/
def deserializeGeotag {κ : Type} (reg : Nat → Option (GeoTagRec κ))
    (w : Option (GeotagWire κ)) : (Nat → Option (GeoTagRec κ)) × Option Nat :=
  match w with
  | none => (reg, none)
  | some prop =>
    let res := addObjectGeoTag reg prop
    let reg1 := if prop.locationModified then setLocationModified res.1 res.2.id else res.1
    let reg2 := if prop.areaModified then setAreaModified reg1 res.2.id else reg1
    (reg2, some res.2.id)

/-! ### Concrete instances (used to evaluate the theorems on closed inputs) -/

/-- A remote store holding two ids under every key. -/
def load0 : LoadContents := fun _ _ _ => (2, [6, 7])

/-- Empty contents cache. -/
def stN : ContentsMap := fun _ => none

/-- Contents cache with a fully known two-element entry under the null key. -/
def stW : ContentsMap :=
  fun k => if k = none then some { count := 2, objectIds := [some 6, some 7] } else none

/-- Contents cache with an entirely unknown two-element entry. -/
def stU : ContentsMap :=
  fun k => if k = none then some { count := 2, objectIds := [none, none] } else none

/-- Contents cache with a known one-element entry. -/
def stBad : ContentsMap :=
  fun k => if k = none then some { count := 1, objectIds := [some 5] } else none

/-- Contents cache with an empty entry of count zero. -/
def stZero : ContentsMap :=
  fun k => if k = none then some { count := 0, objectIds := [] } else none

/-- Contents cache with a fully known 25-element entry. -/
def stC3 : ContentsMap :=
  fun k => if k = none then some { count := 25, objectIds := (List.range 25).map some } else none

/-- A pipeline callback that appends every item but rejects on item 2. -/
def cbW : Nat → List Nat → Except String (List Nat) :=
  fun x a => if x = 2 then Except.error "boom" else Except.ok (a ++ [x])

/-- A pipeline callback that appends every item. -/
def cbApp : Nat → List Nat → Except String (List Nat) :=
  fun x a => Except.ok (a ++ [x])

/-- Empty roots cache. -/
def rootsN : RootsMap := fun _ => none

/-- Roots cache with a cached list under the null key. -/
def rootsW : RootsMap := fun k => if k = none then some [3, 4] else none

/-- A remote store for root objects. -/
def loadR : RootsQuery → List Nat := fun _ => [8, 9]

/-- A two-album registry: album 1 is a child of the root album 2. -/
def regW : AlbumReg :=
  fun i =>
    if i = 1 then some { parentID := some 2, roots := fun _ => none, contents := fun _ => none }
    else if i = 2 then
      some { parentID := none, roots := fun _ => none, contents := fun _ => none }
    else none

/-! ### Helper lemmas: the windowed content cache -/

theorem jsSlice_zero {γ : Type} (a : Nat) (l : List γ) : jsSlice 0 a l = l.take a := by
  simp [jsSlice]

theorem all_isSome_map_some (l : List Nat) : (l.map some).all Option.isSome = true := by
  induction l with
  | nil => rfl
  | cons x xs ih => simp [ih]

theorem filterMap_id_map_some {γ : Type} (l : List γ) : (l.map some).filterMap id = l := by
  induction l with
  | nil => rfl
  | cons x xs ih => simp [ih]

/-- Cache-miss branch: no entry for the key means a remote fetch. -/
theorem gco_of_none (load : LoadContents) (st : ContentsMap) (p s : Nat) (q : Option String)
    (h : st (normKey q) = none) :
    getContentObjects load st p s q = gcoFetch load st (normKey q) p s := by
  unfold getContentObjects
  rw [h]

/-- Invalid-page branch: a positive cached count with the page starting at or
beyond it throws before anything else. -/
theorem gco_of_invalid (load : LoadContents) (st : ContentsMap) (p s : Nat) (q : Option String)
    (e : ContentsEntry) (h : st (normKey q) = some e)
    (hc : 0 < e.count ∧ e.count ≤ (p - 1) * s) :
    getContentObjects load st p s q =
      { result := Except.error { detail := "Invalid page." }, contents := st, fetched := false } := by
  unfold getContentObjects
  rw [h]
  exact if_pos hc

/-- Cache-hit branch: all slots of the requested window known. -/
theorem gco_of_hit (load : LoadContents) (st : ContentsMap) (p s : Nat) (q : Option String)
    (e : ContentsEntry) (h : st (normKey q) = some e)
    (hc : ¬(0 < e.count ∧ e.count ≤ (p - 1) * s))
    (hall : (jsSlice ((p - 1) * s) (p * s) e.objectIds).all Option.isSome = true) :
    getContentObjects load st p s q =
      { result := Except.ok
          { count := e.count,
            objectIds := (jsSlice ((p - 1) * s) (p * s) e.objectIds).filterMap id },
        contents := st, fetched := false } := by
  unfold getContentObjects
  simp only [h]
  rw [if_neg hc, if_pos hall]

/-- Stale-window branch: entry present, page in range, but some slot unknown. -/
theorem gco_of_miss (load : LoadContents) (st : ContentsMap) (p s : Nat) (q : Option String)
    (e : ContentsEntry) (h : st (normKey q) = some e)
    (hc : ¬(0 < e.count ∧ e.count ≤ (p - 1) * s))
    (hall : (jsSlice ((p - 1) * s) (p * s) e.objectIds).all Option.isSome = false) :
    getContentObjects load st p s q = gcoFetch load st (normKey q) p s := by
  unfold getContentObjects
  simp only [h]
  rw [if_neg hc, hall]
  simp

theorem page_mul_sub (p s : Nat) (hp : 1 ≤ p) : p * s = (p - 1) * s + s := by
  obtain ⟨k, rfl⟩ := Nat.exists_eq_add_of_le hp
  simp [Nat.succ_mul, Nat.add_comm 1 k, Nat.add_mul]

/-- Length of the merged sparse sequence: with a well-formed remote window
and matching prior length, merging preserves `ids.length = count`. -/
theorem mergeIds_length (ids0 : List (Option Nat)) (newIds : List Nat) (a s c : Nat)
    (hlen : ids0.length = c) (hn : newIds.length = min s (c - a)) :
    (mergeIds ids0 newIds a (a + s)).length = c := by
  simp [mergeIds, jsSlice, hlen, hn]
  omega

/-- The freshly merged window reads back exactly as the fetched ids. -/
theorem mergeIds_slice (ids0 : List (Option Nat)) (newIds : List Nat) (a s c : Nat)
    (hlen : ids0.length = c) (hac : a < c) (hn : newIds.length = min s (c - a)) :
    jsSlice a (a + s) (mergeIds ids0 newIds a (a + s)) = newIds.map some := by
  have hta : (ids0.take a).length = a := by
    rw [List.length_take, hlen]
    omega
  unfold mergeIds
  rw [jsSlice_zero]
  unfold jsSlice
  rw [List.append_assoc, List.drop_left' hta, Nat.add_sub_cancel_left,
    List.take_append_eq_append_take]
  have hns : newIds.length ≤ s := by omega
  have hms : (newIds.map some).length ≤ s := by simpa using hns
  rw [List.take_of_length_le hms]
  rcases Nat.lt_or_ge (c - a) s with hlt | hge
  · have : ids0.drop (a + s) = [] := by
      apply List.drop_eq_nil_of_le
      omega
    simp [this]
  · have : s - (newIds.map some).length = 0 := by
      simp only [List.length_map]
      omega
    rw [this, List.take_zero, List.append_nil]

/-- Slot-level characterisation of the merge (part_007 line 104): the
requested window is overwritten with the fetched ids; every other slot keeps
its previous value. -/
theorem mergeIds_getElem (ids0 : List (Option Nat)) (newIds : List Nat) (a s c : Nat)
    (hlen : ids0.length = c) (hac : a < c) (hn : newIds.length = min s (c - a)) (i : Nat) :
    (mergeIds ids0 newIds a (a + s))[i]? =
      if a ≤ i ∧ i < a + s then (newIds[i - a]?).map some else ids0[i]? := by
  have hta : (ids0.take a).length = a := by
    rw [List.length_take, hlen]
    omega
  unfold mergeIds
  rw [jsSlice_zero, List.append_assoc]
  rcases Nat.lt_or_ge i a with h1 | h1
  · rw [List.getElem?_append_left (by omega), List.getElem?_take_of_lt h1, if_neg (by omega)]
  · rw [List.getElem?_append_right (by omega), hta]
    rcases Nat.lt_or_ge (i - a) newIds.length with h2 | h2
    · rw [List.getElem?_append_left (by simpa using h2), List.getElem?_map,
        if_pos (by constructor <;> omega)]
    · rw [List.getElem?_append_right (by simpa using h2)]
      simp only [List.length_map]
      rw [List.getElem?_drop]
      rcases Nat.lt_or_ge i (a + s) with h3 | h3
      · -- inside the window but past the fetched ids: both sides are `none`
        have hcs : c < a + s := by omega
        rw [if_pos (by constructor <;> omega)]
        have hl : (ids0.drop (a + s)).length = 0 := by simp [hlen]; omega
        have : (ids0.drop (a + s))[i - a - newIds.length]? = none :=
          List.getElem?_eq_none (by omega)
        rw [List.getElem?_drop] at this
        rw [this]
        have : newIds[i - a]? = none := List.getElem?_eq_none (by omega)
        simp [this]
      · rw [if_neg (by omega)]
        rcases Nat.lt_or_ge c (a + s) with h4 | h4
        · have hz : newIds.length = c - a := by omega
          have : ids0[a + s + (i - a - newIds.length)]? = none :=
            List.getElem?_eq_none (by omega)
          rw [this]
          exact (List.getElem?_eq_none (by omega)).symm
        · have hz : newIds.length = s := by omega
          congr 1
          omega


/-! ### Helper lemmas: the sequential async pipeline -/

theorem promiseChainRun_cons {ι α ε : Type} (cb : ι → α → Except ε α) (t : Nat)
    (item : ι) (rest : List ι) (acc : α) (done : Nat) :
    promiseChainRun cb t (item :: rest) acc done =
      match cb item acc with
      | Except.error e =>
        { events := [PEvent.before { item := item, result := acc, doneCount := done, totalCount := t }],
          invoked := [item], doneCount := done, result := Except.error e }
      | Except.ok data =>
        { events := PEvent.before { item := item, result := acc, doneCount := done, totalCount := t }
            :: PEvent.after { item := item, result := data, doneCount := done + 1, totalCount := t }
            :: (promiseChainRun cb t rest data (done + 1)).events,
          invoked := item :: (promiseChainRun cb t rest data (done + 1)).invoked,
          doneCount := (promiseChainRun cb t rest data (done + 1)).doneCount,
          result := (promiseChainRun cb t rest data (done + 1)).result } := rfl

theorem run_cons_error {ι α ε : Type} {cb : ι → α → Except ε α} {t : Nat}
    {item : ι} {rest : List ι} {acc : α} {done : Nat} {e : ε}
    (hcb : cb item acc = Except.error e) :
    promiseChainRun cb t (item :: rest) acc done =
      { events := [PEvent.before { item := item, result := acc, doneCount := done, totalCount := t }],
        invoked := [item], doneCount := done, result := Except.error e } := by
  rw [promiseChainRun_cons, hcb]

theorem run_cons_ok {ι α ε : Type} {cb : ι → α → Except ε α} {t : Nat}
    {item : ι} {rest : List ι} {acc : α} {done : Nat} {data : α}
    (hcb : cb item acc = Except.ok data) :
    promiseChainRun cb t (item :: rest) acc done =
      { events := PEvent.before { item := item, result := acc, doneCount := done, totalCount := t }
          :: PEvent.after { item := item, result := data, doneCount := done + 1, totalCount := t }
          :: (promiseChainRun cb t rest data (done + 1)).events,
        invoked := item :: (promiseChainRun cb t rest data (done + 1)).invoked,
        doneCount := (promiseChainRun cb t rest data (done + 1)).doneCount,
        result := (promiseChainRun cb t rest data (done + 1)).result } := by
  rw [promiseChainRun_cons, hcb]

theorem beforeEvents_nil {ι α : Type} : beforeEvents ([] : List (PEvent ι α)) = [] := rfl

theorem afterEvents_nil {ι α : Type} : afterEvents ([] : List (PEvent ι α)) = [] := rfl

theorem beforeEvents_cons_before {ι α : Type} (e : ProgressEvent ι α) (evs : List (PEvent ι α)) :
    beforeEvents (PEvent.before e :: evs) = e :: beforeEvents evs := by
  simp [beforeEvents, List.filterMap_cons]

theorem beforeEvents_cons_after {ι α : Type} (e : ProgressEvent ι α) (evs : List (PEvent ι α)) :
    beforeEvents (PEvent.after e :: evs) = beforeEvents evs := by
  simp [beforeEvents, List.filterMap_cons]

theorem afterEvents_cons_before {ι α : Type} (e : ProgressEvent ι α) (evs : List (PEvent ι α)) :
    afterEvents (PEvent.before e :: evs) = afterEvents evs := by
  simp [afterEvents, List.filterMap_cons]

theorem afterEvents_cons_after {ι α : Type} (e : ProgressEvent ι α) (evs : List (PEvent ι α)) :
    afterEvents (PEvent.after e :: evs) = e :: afterEvents evs := by
  simp [afterEvents, List.filterMap_cons]

/-- The pipeline only ever invokes the callback on a prefix of the item
list, in list order. -/
theorem promiseChainRun_invoked_front {ι α ε : Type} (cb : ι → α → Except ε α) (t : Nat) :
    ∀ (l : List ι) (acc : α) (done : Nat),
      ∃ rest, (promiseChainRun cb t l acc done).invoked ++ rest = l := by
  intro l
  induction l with
  | nil => intro acc done; exact ⟨[], rfl⟩
  | cons x xs ih =>
    intro acc done
    cases hcb : cb x acc with
    | error e =>
      refine ⟨xs, ?_⟩
      rw [run_cons_error hcb]
      rfl
    | ok data =>
      obtain ⟨rest, hrest⟩ := ih data (done + 1)
      refine ⟨rest, ?_⟩
      rw [run_cons_ok hcb]
      show x :: (promiseChainRun cb t xs data (done + 1)).invoked ++ rest = x :: xs
      rw [List.cons_append, hrest]

/-- On overall success every item's callback was invoked. -/
theorem promiseChainRun_invoked_of_ok {ι α ε : Type} (cb : ι → α → Except ε α) (t : Nat) :
    ∀ (l : List ι) (acc : α) (done : Nat) (a : α),
      (promiseChainRun cb t l acc done).result = Except.ok a →
      (promiseChainRun cb t l acc done).invoked = l := by
  intro l
  induction l with
  | nil => intro acc done a _; rfl
  | cons x xs ih =>
    intro acc done a h
    cases hcb : cb x acc with
    | error e =>
      rw [run_cons_error hcb] at h
      exact absurd h (by simp)
    | ok data =>
      rw [run_cons_ok hcb] at h ⊢
      show x :: (promiseChainRun cb t xs data (done + 1)).invoked = x :: xs
      rw [ih data (done + 1) a h]

/-- Composition: running past a successful front segment continues from its
accumulator and counter. -/
theorem promiseChainRun_append_ok {ι α ε : Type} (cb : ι → α → Except ε α) (t : Nat) :
    ∀ (l1 l2 : List ι) (acc : α) (done : Nat) (a1 : α),
      (promiseChainRun cb t l1 acc done).result = Except.ok a1 →
      promiseChainRun cb t (l1 ++ l2) acc done =
        { events := (promiseChainRun cb t l1 acc done).events ++
            (promiseChainRun cb t l2 a1 (promiseChainRun cb t l1 acc done).doneCount).events,
          invoked := (promiseChainRun cb t l1 acc done).invoked ++
            (promiseChainRun cb t l2 a1 (promiseChainRun cb t l1 acc done).doneCount).invoked,
          doneCount :=
            (promiseChainRun cb t l2 a1 (promiseChainRun cb t l1 acc done).doneCount).doneCount,
          result :=
            (promiseChainRun cb t l2 a1 (promiseChainRun cb t l1 acc done).doneCount).result } := by
  intro l1
  induction l1 with
  | nil =>
    intro l2 acc done a1 h
    have ha : acc = a1 := by simpa [promiseChainRun] using h
    subst ha
    rfl
  | cons x xs ih =>
    intro l2 acc done a1 h
    cases hcb : cb x acc with
    | error e =>
      rw [run_cons_error hcb] at h
      exact absurd h (by simp)
    | ok data =>
      rw [run_cons_ok hcb] at h
      have h' : (promiseChainRun cb t xs data (done + 1)).result = Except.ok a1 := h
      show promiseChainRun cb t (x :: (xs ++ l2)) acc done = _
      rw [run_cons_ok hcb, run_cons_ok hcb, ih l2 data (done + 1) a1 h']
      simp

/-- Composition: a failed front segment short-circuits the whole run. -/
theorem promiseChainRun_append_error {ι α ε : Type} (cb : ι → α → Except ε α) (t : Nat) :
    ∀ (l1 l2 : List ι) (acc : α) (done : Nat) (e : ε),
      (promiseChainRun cb t l1 acc done).result = Except.error e →
      promiseChainRun cb t (l1 ++ l2) acc done = promiseChainRun cb t l1 acc done := by
  intro l1
  induction l1 with
  | nil =>
    intro l2 acc done e h
    exact absurd h (by simp [promiseChainRun])
  | cons x xs ih =>
    intro l2 acc done e h
    cases hcb : cb x acc with
    | error er =>
      show promiseChainRun cb t (x :: (xs ++ l2)) acc done = _
      rw [run_cons_error hcb, run_cons_error hcb]
    | ok data =>
      rw [run_cons_ok hcb] at h
      have h' : (promiseChainRun cb t xs data (done + 1)).result = Except.error e := h
      show promiseChainRun cb t (x :: (xs ++ l2)) acc done = _
      rw [run_cons_ok hcb, run_cons_ok hcb, ih l2 data (done + 1) e h']

/-- A callback that appends one value per item always succeeds, with the
final accumulator extending the initial one by the items in order. -/
theorem promiseChainRun_append_cb {ι β ε : Type} (g : ι → β) (t : Nat) :
    ∀ (l : List ι) (init : List β) (done : Nat),
      (promiseChainRun (fun x a => (Except.ok (a ++ [g x]) : Except ε (List β))) t l
        init done).result = Except.ok (init ++ l.map g) := by
  intro l
  induction l with
  | nil => intro init done; simp [promiseChainRun]
  | cons x xs ih =>
    intro init done
    rw [run_cons_ok rfl]
    rw [ih (init ++ [g x]) (done + 1)]
    simp


/-- The k-th before event (0-indexed) fires with `doneCount` equal to the
number of already-completed steps, and the run's total as `totalCount`. -/
theorem run_beforeEvents_spec {ι α ε : Type} (cb : ι → α → Except ε α) (t : Nat) :
    ∀ (l : List ι) (acc : α) (done k : Nat) (e : ProgressEvent ι α),
      (beforeEvents (promiseChainRun cb t l acc done).events)[k]? = some e →
      e.doneCount = done + k ∧ e.totalCount = t := by
  intro l
  induction l with
  | nil =>
    intro acc done k e h
    simp [promiseChainRun, beforeEvents] at h
  | cons x xs ih =>
    intro acc done k e h
    cases hcb : cb x acc with
    | error er =>
      rw [run_cons_error hcb] at h
      have h2 : ([({ item := x, result := acc, doneCount := done, totalCount := t } :
          ProgressEvent ι α)])[k]? = some e := h
      cases k with
      | zero =>
        simp at h2
        subst h2
        exact ⟨by simp, rfl⟩
      | succ k' => simp at h2
    | ok data =>
      rw [run_cons_ok hcb] at h
      have h2 : (({ item := x, result := acc, doneCount := done, totalCount := t } :
          ProgressEvent ι α)
          :: beforeEvents (promiseChainRun cb t xs data (done + 1)).events)[k]? = some e := h
      cases k with
      | zero =>
        simp at h2
        subst h2
        exact ⟨by simp, rfl⟩
      | succ k' =>
        simp only [List.getElem?_cons_succ] at h2
        obtain ⟨h1, hT⟩ := ih data (done + 1) k' e h2
        exact ⟨by omega, hT⟩

/-- The k-th after event (0-indexed) fires with `doneCount` equal to the
number of completed steps including its own. -/
theorem run_afterEvents_spec {ι α ε : Type} (cb : ι → α → Except ε α) (t : Nat) :
    ∀ (l : List ι) (acc : α) (done k : Nat) (e : ProgressEvent ι α),
      (afterEvents (promiseChainRun cb t l acc done).events)[k]? = some e →
      e.doneCount = done + k + 1 ∧ e.totalCount = t := by
  intro l
  induction l with
  | nil =>
    intro acc done k e h
    simp [promiseChainRun, afterEvents] at h
  | cons x xs ih =>
    intro acc done k e h
    cases hcb : cb x acc with
    | error er =>
      rw [run_cons_error hcb] at h
      have h2 : (([] : List (ProgressEvent ι α)))[k]? = some e := h
      simp at h2
    | ok data =>
      rw [run_cons_ok hcb] at h
      have h2 : (({ item := x, result := data, doneCount := done + 1, totalCount := t } :
          ProgressEvent ι α)
          :: afterEvents (promiseChainRun cb t xs data (done + 1)).events)[k]? = some e := h
      cases k with
      | zero =>
        simp at h2
        subst h2
        exact ⟨by simp, rfl⟩
      | succ k' =>
        simp only [List.getElem?_cons_succ] at h2
        obtain ⟨h1, hT⟩ := ih data (done + 1) k' e h2
        exact ⟨by omega, hT⟩

/-- Every invoked item gets exactly one before event, in invocation order. -/
theorem run_before_items {ι α ε : Type} (cb : ι → α → Except ε α) (t : Nat) :
    ∀ (l : List ι) (acc : α) (done : Nat),
      (beforeEvents (promiseChainRun cb t l acc done).events).map ProgressEvent.item =
        (promiseChainRun cb t l acc done).invoked := by
  intro l
  induction l with
  | nil => intro acc done; rfl
  | cons x xs ih =>
    intro acc done
    cases hcb : cb x acc with
    | error er =>
      rw [run_cons_error hcb]
      rfl
    | ok data =>
      rw [run_cons_ok hcb]
      show (({ item := x, result := acc, doneCount := done, totalCount := t } :
          ProgressEvent ι α)
          :: beforeEvents (promiseChainRun cb t xs data (done + 1)).events).map
            ProgressEvent.item =
        x :: (promiseChainRun cb t xs data (done + 1)).invoked
      rw [List.map_cons, ih data (done + 1)]

/-- The k-th after event belongs to the k-th step: same item, and its
payload is the successful result of the callback applied to the k-th before
event's accumulator. -/
theorem run_pairing {ι α ε : Type} (cb : ι → α → Except ε α) (t : Nat) :
    ∀ (l : List ι) (acc : α) (done k : Nat) (eb ea : ProgressEvent ι α),
      (beforeEvents (promiseChainRun cb t l acc done).events)[k]? = some eb →
      (afterEvents (promiseChainRun cb t l acc done).events)[k]? = some ea →
      ea.item = eb.item ∧ cb eb.item eb.result = Except.ok ea.result := by
  intro l
  induction l with
  | nil =>
    intro acc done k eb ea hb ha
    simp [promiseChainRun, beforeEvents] at hb
  | cons x xs ih =>
    intro acc done k eb ea hb ha
    cases hcb : cb x acc with
    | error er =>
      rw [run_cons_error hcb] at ha
      have h2 : (([] : List (ProgressEvent ι α)))[k]? = some ea := ha
      simp at h2
    | ok data =>
      rw [run_cons_ok hcb] at hb ha
      have hb2 : (({ item := x, result := acc, doneCount := done, totalCount := t } :
          ProgressEvent ι α)
          :: beforeEvents (promiseChainRun cb t xs data (done + 1)).events)[k]? = some eb := hb
      have ha2 : (({ item := x, result := data, doneCount := done + 1, totalCount := t } :
          ProgressEvent ι α)
          :: afterEvents (promiseChainRun cb t xs data (done + 1)).events)[k]? = some ea := ha
      cases k with
      | zero =>
        simp at hb2 ha2
        subst hb2
        subst ha2
        exact ⟨rfl, hcb⟩
      | succ k' =>
        simp only [List.getElem?_cons_succ] at hb2 ha2
        exact ih data (done + 1) k' eb ea hb2 ha2

/-- On failure the rejecting step fired a before event but no after event. -/
theorem run_len_error {ι α ε : Type} (cb : ι → α → Except ε α) (t : Nat) :
    ∀ (l : List ι) (acc : α) (done : Nat) (e : ε),
      (promiseChainRun cb t l acc done).result = Except.error e →
      (afterEvents (promiseChainRun cb t l acc done).events).length + 1 =
        (beforeEvents (promiseChainRun cb t l acc done).events).length := by
  intro l
  induction l with
  | nil =>
    intro acc done e h
    exact absurd h (by simp [promiseChainRun])
  | cons x xs ih =>
    intro acc done e h
    cases hcb : cb x acc with
    | error er =>
      rw [run_cons_error hcb]
      rfl
    | ok data =>
      rw [run_cons_ok hcb] at h ⊢
      have h' : (promiseChainRun cb t xs data (done + 1)).result = Except.error e := h
      show (afterEvents (PEvent.before
          { item := x, result := acc, doneCount := done, totalCount := t }
        :: PEvent.after { item := x, result := data, doneCount := done + 1, totalCount := t }
        :: (promiseChainRun cb t xs data (done + 1)).events)).length + 1 =
        (beforeEvents (PEvent.before
          { item := x, result := acc, doneCount := done, totalCount := t }
        :: PEvent.after { item := x, result := data, doneCount := done + 1, totalCount := t }
        :: (promiseChainRun cb t xs data (done + 1)).events)).length
      rw [afterEvents_cons_before, afterEvents_cons_after,
        beforeEvents_cons_before, beforeEvents_cons_after]
      simp only [List.length_cons]
      have := ih data (done + 1) e h'
      omega

/-- On success each step fired one before and one after event. -/
theorem run_len_ok {ι α ε : Type} (cb : ι → α → Except ε α) (t : Nat) :
    ∀ (l : List ι) (acc : α) (done : Nat) (a : α),
      (promiseChainRun cb t l acc done).result = Except.ok a →
      (afterEvents (promiseChainRun cb t l acc done).events).length =
        (beforeEvents (promiseChainRun cb t l acc done).events).length := by
  intro l
  induction l with
  | nil => intro acc done a _; rfl
  | cons x xs ih =>
    intro acc done a h
    cases hcb : cb x acc with
    | error er =>
      rw [run_cons_error hcb] at h
      exact absurd h (by simp)
    | ok data =>
      rw [run_cons_ok hcb] at h ⊢
      have h' : (promiseChainRun cb t xs data (done + 1)).result = Except.ok a := h
      show (afterEvents (PEvent.before
          { item := x, result := acc, doneCount := done, totalCount := t }
        :: PEvent.after { item := x, result := data, doneCount := done + 1, totalCount := t }
        :: (promiseChainRun cb t xs data (done + 1)).events)).length =
        (beforeEvents (PEvent.before
          { item := x, result := acc, doneCount := done, totalCount := t }
        :: PEvent.after { item := x, result := data, doneCount := done + 1, totalCount := t }
        :: (promiseChainRun cb t xs data (done + 1)).events)).length
      rw [afterEvents_cons_before, afterEvents_cons_after,
        beforeEvents_cons_before, beforeEvents_cons_after]
      simp only [List.length_cons]
      have := ih data (done + 1) a h'
      omega

/-! ### Helper lemmas: album ancestor invalidation -/

theorem resetData_parentID (a : AlbumState) : (resetData a).parentID = a.parentID := rfl

theorem resetData_resetData (a : AlbumState) : resetData (resetData a) = resetData a := rfl

/-- The ancestor chain depends only on the parent links, not on the cached
data. -/
theorem ancestorChain_congr :
    ∀ (fuel : Nat) (reg reg2 : AlbumReg),
      (∀ j, (reg2 j).map AlbumState.parentID = (reg j).map AlbumState.parentID) →
      ∀ i, ancestorChain reg2 fuel i = ancestorChain reg fuel i := by
  intro fuel
  induction fuel with
  | zero => intro reg reg2 _ i; rfl
  | succ n ih =>
    intro reg reg2 hp i
    have hpi := hp i
    unfold ancestorChain
    cases h1 : reg i with
    | none =>
      rw [h1, Option.map_none'] at hpi
      cases h2 : reg2 i with
      | none => rfl
      | some a2 =>
        rw [h2, Option.map_some'] at hpi
        exact absurd hpi (by simp)
    | some a1 =>
      rw [h1, Option.map_some'] at hpi
      cases h2 : reg2 i with
      | none =>
        rw [h2, Option.map_none'] at hpi
        exact absurd hpi (by simp)
      | some a2 =>
        rw [h2, Option.map_some'] at hpi
        have hpar : a2.parentID = a1.parentID := by
          exact Option.some.inj hpi
        show (match a2.parentID with
          | none => some [i]
          | some p => (ancestorChain reg2 n p).map fun ids => i :: ids) =
          (match a1.parentID with
          | none => some [i]
          | some p => (ancestorChain reg n p).map fun ids => i :: ids)
        rw [hpar]
        cases hq : a1.parentID with
        | none => rfl
        | some p =>
          show Option.map (fun ids => i :: ids) (ancestorChain reg2 n p) =
            Option.map (fun ids => i :: ids) (ancestorChain reg n p)
          rw [ih reg reg2 hp p]

/-- Full characterisation of the `updateParents` walk: it returns exactly
the ancestor chain, resets the cached data of exactly the chain members,
and leaves every other album untouched. -/
theorem updateParentsLoop_spec :
    ∀ (fuel : Nat) (reg : AlbumReg) (i : Nat) (r : AlbumReg) (ids : List Nat),
      updateParentsLoop reg fuel i = some (r, ids) →
      ancestorChain reg fuel i = some ids ∧
      (∀ b, b ∈ ids → r b = (reg b).map resetData) ∧
      (∀ b, b ∉ ids → r b = reg b) := by
  intro fuel
  induction fuel with
  | zero => intro reg i r ids h; exact absurd h (by simp [updateParentsLoop])
  | succ n ih =>
    intro reg i r ids h
    unfold updateParentsLoop at h
    cases hri : reg i with
    | none => rw [hri] at h; exact absurd h (by simp)
    | some a =>
      rw [hri] at h
      have h2 : (match a.parentID with
        | none => some (fun j => if j = i then some (resetData a) else reg j, [i])
        | some p => Option.map (fun r => (r.1, i :: r.2))
            (updateParentsLoop (fun j => if j = i then some (resetData a) else reg j) n p)) =
        some (r, ids) := h
      cases hpar : a.parentID with
      | none =>
        rw [hpar] at h2
        simp only [Option.some.injEq, Prod.mk.injEq] at h2
        obtain ⟨hr, hids⟩ := h2
        subst hr
        subst hids
        refine ⟨?_, ?_, ?_⟩
        · unfold ancestorChain
          rw [hri]
          show (match a.parentID with
            | none => some [i]
            | some p => (ancestorChain reg n p).map fun ids => i :: ids) = some [i]
          rw [hpar]
        · intro b hb
          simp only [List.mem_singleton] at hb
          subst hb
          simp [hri]
        · intro b hb
          simp only [List.mem_singleton] at hb
          simp [hb]
      | some p =>
        rw [hpar] at h2
        have h3 : Option.map (fun r => (r.1, i :: r.2))
            (updateParentsLoop (fun j => if j = i then some (resetData a) else reg j) n p) =
            some (r, ids) := h2
        rw [Option.map_eq_some'] at h3
        obtain ⟨r0, hr0, hpr⟩ := h3
        have hr : r0.1 = r := congrArg Prod.fst hpr
        have hids : i :: r0.2 = ids := congrArg Prod.snd hpr
        obtain ⟨hchain, hreset, hframe⟩ :=
          ih (fun j => if j = i then some (resetData a) else reg j) p r0.1 r0.2
            (by rw [hr0])
        have hcong : ancestorChain (fun j => if j = i then some (resetData a) else reg j) n p =
            ancestorChain reg n p := by
          apply ancestorChain_congr
          intro j
          by_cases hj : j = i
          · subst hj
            simp [hri, resetData_parentID]
          · simp [hj]
        refine ⟨?_, ?_, ?_⟩
        · unfold ancestorChain
          rw [hri]
          show (match a.parentID with
            | none => some [i]
            | some q => (ancestorChain reg n q).map fun ids => i :: ids) = some ids
          rw [hpar]
          show Option.map (fun ids => i :: ids) (ancestorChain reg n p) = some ids
          rw [← hcong, hchain, ← hids]
          rfl
        · intro b hb
          rw [← hids] at hb
          rw [← hr]
          rcases List.mem_cons.mp hb with hbi | hbt
          · subst hbi
            by_cases hbtail : b ∈ r0.2
            · rw [hreset b hbtail]
              simp [hri, resetData_resetData]
            · rw [hframe b hbtail]
              simp [hri]
          · rw [hreset b hbt]
            by_cases hbi : b = i
            · subst hbi
              simp [hri, resetData_resetData]
            · simp [hbi]
        · intro b hb
          rw [← hids] at hb
          rw [← hr]
          have hbi : b ≠ i := fun hc => hb (hc ▸ List.mem_cons_self i r0.2)
          have hbt : b ∉ r0.2 := fun hc => hb (List.mem_cons_of_mem i hc)
          rw [hframe b hbt]
          simp [hbi]

/-! ### Helper lemmas: the geotag special property -/

theorem addObjectGeoTag_id {κ : Type} (reg : Nat → Option (GeoTagRec κ)) (w : GeotagWire κ) :
    (addObjectGeoTag reg w).2.id = w.id := by
  unfold addObjectGeoTag
  cases reg w.id <;> rfl

/-! ### Claim theorems -/

/-- C2 (amended): for every container with a cached contents entry of
**positive** count, and every page and pageSize such that
`(page - 1) * pageSize >= count`, `getContentObjects` fails with the
InvalidPage condition (detail "Invalid page.") with the cache unchanged and
no remote call.  (The source guards the check with `count > 0`, so a cached
count of 0 never raises InvalidPage.) -/
theorem invalidPage_c2 (load : LoadContents) (st : ContentsMap) (page pageSize : Nat)
    (q : Option String) (e : ContentsEntry)
    (h : st (normKey q) = some e) (hpos : 0 < e.count)
    (hbeyond : e.count ≤ (page - 1) * pageSize) :
    getContentObjects load st page pageSize q =
      { result := Except.error { detail := "Invalid page." },
        contents := st, fetched := false } :=
  gco_of_invalid load st page pageSize q e h ⟨hpos, hbeyond⟩

/-- C2, witness: a cached count of 2 with page 2 of size 10 requested. -/
theorem invalidPage_c2_witness :
    getContentObjects load0 stW 2 10 none =
      { result := Except.error { detail := "Invalid page." },
        contents := stW, fetched := false } :=
  invalidPage_c2 load0 stW 2 10 none { count := 2, objectIds := [some 6, some 7] } rfl
    (by decide) (by decide)

/-- C2, counterexample to the claim as stated: with a cached entry of count
0 and a page starting beyond it (page 5, pageSize 10), the code does *not*
raise InvalidPage — it returns the empty cached page with no remote call. -/
theorem invalidPage_c2_counterexample :
    stZero (normKey none) = some { count := 0, objectIds := [] } ∧
    (0 : Nat) ≤ (5 - 1) * 10 ∧
    (getContentObjects load0 stZero 5 10 none).result =
      Except.ok { count := 0, objectIds := [] } ∧
    (getContentObjects load0 stZero 5 10 none).fetched = false :=
  ⟨rfl, by decide, rfl, rfl⟩

/-- C3: with a cached entry of count 25 and all 25 slots known,
`getContentObjects(page=3, pageSize=10)` returns exactly the ids in slots
20-24, in order, with no remote call, and `page=4` fails with InvalidPage. -/
theorem pagination_c3 (load : LoadContents) (st : ContentsMap) (q : Option String)
    (ids : List Nat) (h25 : ids.length = 25)
    (h : st (normKey q) = some { count := 25, objectIds := ids.map some }) :
    getContentObjects load st 3 10 q =
      { result := Except.ok { count := 25, objectIds := ids.drop 20 },
        contents := st, fetched := false } ∧
    getContentObjects load st 4 10 q =
      { result := Except.error { detail := "Invalid page." },
        contents := st, fetched := false } := by
  have hslice : jsSlice ((3 - 1) * 10) (3 * 10) (ids.map some) = (ids.drop 20).map some := by
    unfold jsSlice
    rw [← List.map_drop]
    apply List.take_of_length_le
    simp [h25]
  constructor
  · have hall : (jsSlice ((3 - 1) * 10) (3 * 10) (ids.map some)).all Option.isSome = true := by
      rw [hslice]
      exact all_isSome_map_some (ids.drop 20)
    rw [gco_of_hit load st 3 10 q { count := 25, objectIds := ids.map some } h (by simp) hall]
    rw [hslice, filterMap_id_map_some]
  · exact gco_of_invalid load st 4 10 q { count := 25, objectIds := ids.map some } h
      (by constructor <;> simp)

/-- C3, witness: the entry holding ids 0..24. -/
theorem pagination_c3_witness :
    getContentObjects load0 stC3 3 10 none =
      { result := Except.ok { count := 25, objectIds := (List.range 25).drop 20 },
        contents := stC3, fetched := false } ∧
    getContentObjects load0 stC3 4 10 none =
      { result := Except.error { detail := "Invalid page." },
        contents := stC3, fetched := false } :=
  pagination_c3 load0 stC3 none (List.range 25) (by decide) rfl

/-- C9: the geotag special property round-trips: a null geotag serialises
to the explicit null wire value and deserialises back to a null stored id;
a non-null geotag serialises to a wire record whose deserialisation stores
exactly the original geotag's id. -/
theorem geotagRoundTrip_c9 (κ : Type) (reg : Nat → Option (GeoTagRec κ)) (g : GeoTagRec κ) :
    serializeGeotag (none : Option (GeoTagRec κ)) = none ∧
    (deserializeGeotag reg (none : Option (GeotagWire κ))).2 = none ∧
    (deserializeGeotag reg (serializeGeotag (some g))).2 = some g.id := by
  refine ⟨rfl, rfl, ?_⟩
  show some (addObjectGeoTag reg
    { id := g.id,
      latitude := if g.locationModified then g.latitude else none,
      longitude := if g.locationModified then g.longitude else none,
      area := if g.areaModified then some g.areaID else none,
      locationModified := false,
      areaModified := false }).2.id = some g.id
  rw [addObjectGeoTag_id]

/-- C10 (implicit): the pipeline on an empty item list resolves with the
initial accumulator unchanged, invokes no callback, fires no events, and
leaves the done counter at zero. -/
theorem emptyPipeline_c10 (ι α ε : Type) (cb : ι → α → Except ε α) (init : α) :
    promiseChain ([] : List ι) cb init = Except.ok init ∧
    promiseChainRun cb 0 ([] : List ι) init 0 =
      { events := [], invoked := [], doneCount := 0, result := Except.ok init } :=
  ⟨rfl, rfl⟩

/-- C7: for a container type with roots, the first `getRoots` call for a
search key fetches the full unpaginated id list via `loadFiltered` with the
container's filter param and the search key and stores it; a later call
with the same key returns the stored list with no remote call; and neither
`getRoots` nor `getContentObjects` ever modifies the cached entry of any
other search key. -/
theorem roots_c7 (selfId : Nat) (load : RootsQuery → List Nat) (roots : RootsMap)
    (q : Option String) (loadC : LoadContents) (st : ContentsMap) (page pageSize : Nat) :
    (roots (normKey q) = none →
      getRoots true selfId load roots q =
        some { objectIds := load { parentFilter := selfId, search := normKey q },
               roots := mapSet roots (normKey q)
                 (load { parentFilter := selfId, search := normKey q }),
               fetched := true }) ∧
    (∀ ids, roots (normKey q) = some ids →
      getRoots true selfId load roots q =
        some { objectIds := ids, roots := roots, fetched := false }) ∧
    (∀ out, getRoots true selfId load roots q = some out →
      ∀ k, k ≠ normKey q → out.roots k = roots k) ∧
    (∀ k, k ≠ normKey q →
      (getContentObjects loadC st page pageSize q).contents k = st k) := by
  refine ⟨?_, ?_, ?_, ?_⟩
  · intro h
    simp [getRoots, h]
  · intro ids h
    simp [getRoots, h]
  · intro out hout k hk
    cases hroots : roots (normKey q) with
    | none =>
      rw [getRoots] at hout
      rw [if_neg (by simp)] at hout
      rw [hroots] at hout
      have hout2 : some (⟨load { parentFilter := selfId, search := normKey q },
          mapSet roots (normKey q) (load { parentFilter := selfId, search := normKey q }),
          true⟩ : RootsOutcome) = some out := hout
      have hro : out.roots = mapSet roots (normKey q)
          (load { parentFilter := selfId, search := normKey q }) := by
        rw [← Option.some.inj hout2]
      rw [hro]
      simp [mapSet, hk]
    | some ids =>
      rw [getRoots] at hout
      rw [if_neg (by simp)] at hout
      rw [hroots] at hout
      have hout2 : some (⟨ids, roots, false⟩ : RootsOutcome) = some out := hout
      have hro : out.roots = roots := by
        rw [← Option.some.inj hout2]
      rw [hro]
  · intro k hk
    cases h0 : st (normKey q) with
    | none =>
      rw [gco_of_none loadC st page pageSize q h0]
      simp [gcoFetch, mapSet, hk]
    | some e0 =>
      by_cases hinv : 0 < e0.count ∧ e0.count ≤ (page - 1) * pageSize
      · rw [gco_of_invalid loadC st page pageSize q e0 h0 hinv]
      · cases hB : (jsSlice ((page - 1) * pageSize) (page * pageSize)
            e0.objectIds).all Option.isSome with
        | true => rw [gco_of_hit loadC st page pageSize q e0 h0 hinv hB]
        | false =>
          rw [gco_of_miss loadC st page pageSize q e0 h0 hinv hB]
          simp [gcoFetch, mapSet, hk]

/-- C7, witness: a cache miss fetches and stores, a hit is served locally,
and entries under other keys are untouched. -/
theorem roots_c7_witness :
    (getRoots true 1 loadR rootsN none =
      some { objectIds := loadR { parentFilter := 1, search := none },
             roots := mapSet rootsN none (loadR { parentFilter := 1, search := none }),
             fetched := true }) ∧
    (getRoots true 1 loadR rootsW none =
      some { objectIds := [3, 4], roots := rootsW, fetched := false }) ∧
    (mapSet rootsN none (loadR { parentFilter := 1, search := none })) (some "x") =
      rootsN (some "x") ∧
    (getContentObjects load0 stN 1 10 none).contents (some "x") = stN (some "x") := by
  have ha := (roots_c7 1 loadR rootsN none load0 stN 1 10).1 rfl
  refine ⟨ha, (roots_c7 1 loadR rootsW none load0 stN 1 10).2.1 [3, 4] rfl, ?_, ?_⟩
  · exact (roots_c7 1 loadR rootsN none load0 stN 1 10).2.2.1 _ ha (some "x") (by decide)
  · exact (roots_c7 1 loadR rootsN none load0 stN 1 10).2.2.2 (some "x") (by decide)

/-- C5: the pipeline invokes the callback on items strictly in list order
(always a prefix of the item list); with an appending step the final
accumulator is the initial one followed by the items in order; and when the
step for an item rejects after a successful front segment, the whole
pipeline rejects with that same reason having invoked nothing past the
rejecting item. -/
theorem pipeline_c5 :
    (∀ (ι α ε : Type) (cb : ι → α → Except ε α) (t : Nat) (l : List ι) (acc : α) (d : Nat),
      ∃ rest, (promiseChainRun cb t l acc d).invoked ++ rest = l) ∧
    (∀ (ι ε : Type) (l : List ι) (init : List ι),
      promiseChain l (fun x a => (Except.ok (a ++ [x]) : Except ε (List ι))) init =
        Except.ok (init ++ l)) ∧
    (∀ (ι α ε : Type) (cb : ι → α → Except ε α) (t d : Nat) (l1 l2 : List ι) (x : ι)
        (init a1 : α) (e : ε),
      (promiseChainRun cb t l1 init d).result = Except.ok a1 →
      cb x a1 = Except.error e →
      (promiseChainRun cb t (l1 ++ x :: l2) init d).result = Except.error e ∧
      (promiseChainRun cb t (l1 ++ x :: l2) init d).invoked =
        (promiseChainRun cb t l1 init d).invoked ++ [x]) := by
  refine ⟨fun ι α ε cb t l acc d => promiseChainRun_invoked_front cb t l acc d, ?_, ?_⟩
  · intro ι ε l init
    have h := @promiseChainRun_append_cb ι ι ε (fun x : ι => x) l.length l init 0
    have h2 : promiseChain l (fun x a => (Except.ok (a ++ [x]) : Except ε (List ι))) init =
        Except.ok (init ++ l.map (fun x : ι => x)) := h
    rw [h2]
    simp
  · intro ι α ε cb t d l1 l2 x init a1 e h1 hcb
    have hrw := promiseChainRun_append_ok cb t l1 (x :: l2) init d a1 h1
    constructor
    · rw [hrw]
      show (promiseChainRun cb t (x :: l2) a1
        (promiseChainRun cb t l1 init d).doneCount).result = Except.error e
      rw [run_cons_error hcb]
    · rw [hrw]
      show (promiseChainRun cb t l1 init d).invoked ++
          (promiseChainRun cb t (x :: l2) a1
            (promiseChainRun cb t l1 init d).doneCount).invoked =
        (promiseChainRun cb t l1 init d).invoked ++ [x]
      rw [run_cons_error hcb]

/-- C5, witness: on items `[1, 2, 3]` with a callback rejecting item 2, the
run rejects with that reason having invoked only `[1, 2]`. -/
theorem pipeline_c5_witness :
    (promiseChainRun cbW 3 ([1] ++ 2 :: [3]) [] 0).result = Except.error "boom" ∧
    (promiseChainRun cbW 3 ([1] ++ 2 :: [3]) [] 0).invoked =
      (promiseChainRun cbW 3 [1] [] 0).invoked ++ [2] :=
  pipeline_c5.2.2 Nat (List Nat) String cbW 3 0 [1] [3] 2 [] [1] "boom" rfl rfl

/-- C6: with handlers registered through `.progress`, a before event fires
for each invoked step carrying the item, the accumulator so far, the number
of completed steps and the total; an after event fires only when a step
succeeds, carrying the step's result and the incremented counter; the k-th
before event has `doneCount = k` and the k-th after event `doneCount = k + 1`
(0-indexed); and a rejecting step fires a before event but no after event. -/
theorem pipelineEvents_c6 (ι α ε : Type) (cb : ι → α → Except ε α) (l : List ι) (init : α) :
    ((beforeEvents (promiseChainRun cb l.length l init 0).events).map ProgressEvent.item =
      (promiseChainRun cb l.length l init 0).invoked) ∧
    (∀ (k : Nat) (e : ProgressEvent ι α),
      (beforeEvents (promiseChainRun cb l.length l init 0).events)[k]? = some e →
      e.doneCount = k ∧ e.totalCount = l.length) ∧
    (∀ (k : Nat) (e : ProgressEvent ι α),
      (afterEvents (promiseChainRun cb l.length l init 0).events)[k]? = some e →
      e.doneCount = k + 1 ∧ e.totalCount = l.length) ∧
    (∀ (k : Nat) (eb ea : ProgressEvent ι α),
      (beforeEvents (promiseChainRun cb l.length l init 0).events)[k]? = some eb →
      (afterEvents (promiseChainRun cb l.length l init 0).events)[k]? = some ea →
      ea.item = eb.item ∧ cb eb.item eb.result = Except.ok ea.result) ∧
    (∀ e, (promiseChainRun cb l.length l init 0).result = Except.error e →
      (afterEvents (promiseChainRun cb l.length l init 0).events).length + 1 =
        (beforeEvents (promiseChainRun cb l.length l init 0).events).length) ∧
    (∀ a, (promiseChainRun cb l.length l init 0).result = Except.ok a →
      (afterEvents (promiseChainRun cb l.length l init 0).events).length =
        (beforeEvents (promiseChainRun cb l.length l init 0).events).length) := by
  refine ⟨run_before_items cb l.length l init 0, ?_, ?_,
    fun k eb ea hb ha => run_pairing cb l.length l init 0 k eb ea hb ha,
    fun e h => run_len_error cb l.length l init 0 e h,
    fun a h => run_len_ok cb l.length l init 0 a h⟩
  · intro k e h
    have hs := run_beforeEvents_spec cb l.length l init 0 k e h
    simpa using hs
  · intro k e h
    have hs := run_afterEvents_spec cb l.length l init 0 k e h
    simpa using hs

/-- C6, witness: on items `[5, 7]` with an appending callback, the second
before event has `doneCount = 1`, the first after event pairs with the
first before event, and the numbers of before and after events agree. -/
theorem pipelineEvents_c6_witness :
    ((⟨7, [5], 1, 2⟩ : ProgressEvent Nat (List Nat)).doneCount = 1 ∧
      (⟨7, [5], 1, 2⟩ : ProgressEvent Nat (List Nat)).totalCount = 2) ∧
    ((⟨5, [5], 1, 2⟩ : ProgressEvent Nat (List Nat)).item =
        (⟨5, [], 0, 2⟩ : ProgressEvent Nat (List Nat)).item ∧
      cbApp (⟨5, [], 0, 2⟩ : ProgressEvent Nat (List Nat)).item
        (⟨5, [], 0, 2⟩ : ProgressEvent Nat (List Nat)).result =
        Except.ok (⟨5, [5], 1, 2⟩ : ProgressEvent Nat (List Nat)).result) ∧
    (afterEvents (promiseChainRun cbApp 2 [5, 7] [] 0).events).length =
      (beforeEvents (promiseChainRun cbApp 2 [5, 7] [] 0).events).length :=
  ⟨(pipelineEvents_c6 Nat (List Nat) String cbApp [5, 7] []).2.1 1 ⟨7, [5], 1, 2⟩ (by decide),
   (pipelineEvents_c6 Nat (List Nat) String cbApp [5, 7] []).2.2.2.1 0
     ⟨5, [], 0, 2⟩ ⟨5, [5], 1, 2⟩ (by decide) (by decide),
   (pipelineEvents_c6 Nat (List Nat) String cbApp [5, 7] []).2.2.2.2.2 [5, 7] rfl⟩

/-- C8: for an album with an acyclic, fully loaded parent chain (witnessed
by `addFiles` returning a value within the walk's fuel), `addFiles`
issues one `Database.create(AlbumFile, ...)` per file, strictly in order,
through the sequential pipeline, followed by exactly one `updateParents`
whose single `loadIds` reload names exactly the ancestor chain; the
registry afterwards has the cached data of the album and of every ancestor
on the chain reset, and of no other album. -/
theorem albumInvalidation_c8 (reg : AlbumReg) (albumId fuel : Nat) (files : List Nat)
    (reg2 : AlbumReg) (ops : List AlbumOp)
    (h : addFiles reg albumId files fuel = some (reg2, ops)) :
    ∃ ids, ops = files.map (fun f => AlbumOp.createAlbumFile albumId f) ++
        [AlbumOp.loadIds ids] ∧
      ancestorChain reg fuel albumId = some ids ∧
      (∀ b, b ∈ ids → reg2 b = (reg b).map resetData) ∧
      (∀ b, b ∉ ids → reg2 b = reg b) := by
  unfold addFiles at h
  have hpc : promiseChain files
      (fun fileId ops =>
        (Except.ok (ops ++ [AlbumOp.createAlbumFile albumId fileId]) : Except ApiError _)) [] =
      Except.ok ([] ++ files.map fun f => AlbumOp.createAlbumFile albumId f) :=
    promiseChainRun_append_cb (fun f => AlbumOp.createAlbumFile albumId f)
      files.length files [] 0
  rw [hpc] at h
  have h2 : Option.map
      (fun r => (r.1, ([] ++ files.map fun f => AlbumOp.createAlbumFile albumId f) ++
        [AlbumOp.loadIds r.2]))
      (updateParents reg albumId fuel) = some (reg2, ops) := h
  rw [Option.map_eq_some'] at h2
  obtain ⟨r0, hup, heq⟩ := h2
  obtain ⟨hchain, hreset, hframe⟩ :=
    updateParentsLoop_spec fuel reg albumId r0.1 r0.2 hup
  have hr : r0.1 = reg2 := congrArg Prod.fst heq
  have hops : ([] ++ files.map fun f => AlbumOp.createAlbumFile albumId f) ++
      [AlbumOp.loadIds r0.2] = ops := congrArg Prod.snd heq
  refine ⟨r0.2, ?_, hchain, ?_, ?_⟩
  · rw [← hops]
    simp
  · intro b hb
    rw [← hr]
    exact hreset b hb
  · intro b hb
    rw [← hr]
    exact hframe b hb

/-- C8, witness: adding two files to album 1, whose parent chain is
1 → 2 → root. -/
theorem albumInvalidation_c8_witness :
    ∃ pr, addFiles regW 1 [10, 11] 3 = some pr ∧
      ∃ ids, pr.2 = [AlbumOp.createAlbumFile 1 10, AlbumOp.createAlbumFile 1 11,
          AlbumOp.loadIds ids] ∧
        ancestorChain regW 3 1 = some ids ∧
        (∀ b, b ∈ ids → pr.1 b = (regW b).map resetData) ∧
        (∀ b, b ∉ ids → pr.1 b = regW b) := by
  have hs : (addFiles regW 1 [10, 11] 3).isSome = true := by decide
  obtain ⟨pr, hpr⟩ := Option.isSome_iff_exists.mp hs
  obtain ⟨ids, hops, hchain, hreset, hframe⟩ :=
    albumInvalidation_c8 regW 1 3 [10, 11] pr.1 pr.2 (by rw [hpr])
  exact ⟨pr, hpr, ids, hops, hchain, hreset, hframe⟩

/-- C1 (amended): (a) when a cached entry exists, the requested page does
not start at or beyond a positive cached count (the InvalidPage check
precedes the cache hit), and every slot of the requested window is known,
`getContentObjects` returns that cached slice with no remote call and no
cache change; (b) with no cached entry the first call fetches; (c) under a
well-formed remote response and a pre-existing entry consistent with it
(the rendering of "no intervening structural change"), the second of two
identical calls never fetches — so two identical calls issue at most one
remote fetch, exactly one when starting cold. -/
theorem windowedCache_c1 (load : LoadContents) (st : ContentsMap) (page pageSize : Nat)
    (q : Option String) (hp : 1 ≤ page) :
    (∀ e, st (normKey q) = some e →
      ¬(0 < e.count ∧ e.count ≤ (page - 1) * pageSize) →
      (jsSlice ((page - 1) * pageSize) (page * pageSize) e.objectIds).all Option.isSome = true →
      getContentObjects load st page pageSize q =
        { result := Except.ok
            { count := e.count,
              objectIds := (jsSlice ((page - 1) * pageSize) (page * pageSize)
                e.objectIds).filterMap id },
          contents := st, fetched := false }) ∧
    (st (normKey q) = none → (getContentObjects load st page pageSize q).fetched = true) ∧
    (wfLoad load (normKey q) page pageSize →
      entryConsistent (st (normKey q)) (load (normKey q) page pageSize).1 →
      (getContentObjects load
        (getContentObjects load st page pageSize q).contents page pageSize q).fetched =
        false) := by
  have hb : page * pageSize = (page - 1) * pageSize + pageSize := page_mul_sub page pageSize hp
  refine ⟨fun e h hinv hall => gco_of_hit load st page pageSize q e h hinv hall, ?_, ?_⟩
  · intro h
    rw [gco_of_none load st page pageSize q h]
    rfl
  · intro hwf hcons
    have hsecond : (gcoOldIds st (normKey q) (load (normKey q) page pageSize).1).length =
        (load (normKey q) page pageSize).1 →
        (getContentObjects load
          (gcoFetch load st (normKey q) page pageSize).contents page pageSize q).fetched =
          false := by
      intro hlen
      have hE : (gcoFetch load st (normKey q) page pageSize).contents (normKey q) =
          some { count := (load (normKey q) page pageSize).1,
                 objectIds := mergeIds
                   (gcoOldIds st (normKey q) (load (normKey q) page pageSize).1)
                   (load (normKey q) page pageSize).2
                   ((page - 1) * pageSize) (page * pageSize) } := by
        simp [gcoFetch, mapSet]
      rcases Nat.eq_zero_or_pos (load (normKey q) page pageSize).1 with hc0 | hcpos
      · have hwf2 := hwf
        unfold wfLoad at hwf2
        have hnew : (load (normKey q) page pageSize).2 = [] :=
          List.length_eq_zero.mp (by omega)
        have hids0 : gcoOldIds st (normKey q) (load (normKey q) page pageSize).1 = [] :=
          List.length_eq_zero.mp (by omega)
        rw [hids0, hnew] at hE
        have hmerge : mergeIds [] [] ((page - 1) * pageSize) (page * pageSize) = [] := by
          simp [mergeIds, jsSlice]
        rw [hmerge] at hE
        rw [gco_of_hit load _ page pageSize q _ hE
          (by
            show ¬(0 < (load (normKey q) page pageSize).1 ∧
              (load (normKey q) page pageSize).1 ≤ (page - 1) * pageSize)
            omega)
          (by simp [jsSlice])]
      · by_cases hca : (load (normKey q) page pageSize).1 ≤ (page - 1) * pageSize
        · rw [gco_of_invalid load _ page pageSize q _ hE ⟨hcpos, hca⟩]
        · have hac : (page - 1) * pageSize < (load (normKey q) page pageSize).1 := by omega
          have hslice : jsSlice ((page - 1) * pageSize) (page * pageSize)
              (mergeIds (gcoOldIds st (normKey q) (load (normKey q) page pageSize).1)
                (load (normKey q) page pageSize).2
                ((page - 1) * pageSize) (page * pageSize)) =
              (load (normKey q) page pageSize).2.map some := by
            rw [hb]
            exact mergeIds_slice _ _ _ _ _ hlen hac hwf
          rw [gco_of_hit load _ page pageSize q _ hE (fun hcontra => hca hcontra.2)
            (by rw [hslice]; exact all_isSome_map_some _)]
    cases h0 : st (normKey q) with
    | none =>
      rw [gco_of_none load st page pageSize q h0]
      apply hsecond
      simp [gcoOldIds, h0]
    | some e0 =>
      have hcc : e0.count = (load (normKey q) page pageSize).1 ∧
          e0.objectIds.length = (load (normKey q) page pageSize).1 := by
        rw [h0] at hcons
        exact hcons
      by_cases hinv : 0 < e0.count ∧ e0.count ≤ (page - 1) * pageSize
      · rw [gco_of_invalid load st page pageSize q e0 h0 hinv]
        show (getContentObjects load st page pageSize q).fetched = false
        rw [gco_of_invalid load st page pageSize q e0 h0 hinv]
      · cases hB : (jsSlice ((page - 1) * pageSize) (page * pageSize)
            e0.objectIds).all Option.isSome with
        | true =>
          rw [gco_of_hit load st page pageSize q e0 h0 hinv hB]
          show (getContentObjects load st page pageSize q).fetched = false
          rw [gco_of_hit load st page pageSize q e0 h0 hinv hB]
        | false =>
          rw [gco_of_miss load st page pageSize q e0 h0 hinv hB]
          apply hsecond
          simp [gcoOldIds, h0, hcc.2]

/-- C1, witness: a fully known cached entry is served locally; from an
empty cache the first call fetches and the second identical call does not. -/
theorem windowedCache_c1_witness :
    (getContentObjects load0 stW 1 10 none =
      { result := Except.ok { count := 2, objectIds := [6, 7] },
        contents := stW, fetched := false }) ∧
    (getContentObjects load0 stN 1 10 none).fetched = true ∧
    (getContentObjects load0
      (getContentObjects load0 stN 1 10 none).contents 1 10 none).fetched = false :=
  ⟨(windowedCache_c1 load0 stW 1 10 none (by decide)).1
      { count := 2, objectIds := [some 6, some 7] } rfl (by decide) (by decide),
   (windowedCache_c1 load0 stN 1 10 none (by decide)).2.1 rfl,
   (windowedCache_c1 load0 stN 1 10 none (by decide)).2.2 rfl trivial⟩

/-- C1, counterexample to the claim as stated: with a cached entry of count
1 and page 2 of size 10 requested, the requested page range `[10, 20)`
contains no slot, so "every id slot in the requested page range is known"
holds vacuously — yet the call does not return the cached (empty) slice: it
throws InvalidPage, because the source checks InvalidPage before the cache
hit. -/
theorem windowedCache_c1_counterexample :
    stBad (normKey none) = some { count := 1, objectIds := [some 5] } ∧
    (jsSlice ((2 - 1) * 10) (2 * 10) [some 5]).all Option.isSome = true ∧
    (getContentObjects load0 stBad 2 10 none).result =
      Except.error { detail := "Invalid page." } ∧
    (getContentObjects load0 stBad 2 10 none).result ≠
      Except.ok { count := 1,
                  objectIds := (jsSlice ((2 - 1) * 10) (2 * 10) [some 5]).filterMap id } :=
  ⟨rfl, by decide, rfl, fun hcontra => Except.noConfusion hcontra⟩

/-- C4: (i) the first populating fetch stores an entry with
`ids.length = count`; (ii) a later fetch (of any page, in particular a
different one) with the remote count unchanged overwrites exactly the slots
of that page's range with the fetched ids and leaves every other slot, and
the length invariant, intact. -/
theorem sparseMerge_c4 (load : LoadContents) (st : ContentsMap) (page pageSize : Nat)
    (q : Option String) (hp : 1 ≤ page) :
    (st (normKey q) = none → wfLoad load (normKey q) page pageSize →
      ∃ e1, (getContentObjects load st page pageSize q).contents (normKey q) = some e1 ∧
        e1.count = (load (normKey q) page pageSize).1 ∧
        e1.objectIds.length = e1.count) ∧
    (∀ e0, st (normKey q) = some e0 →
      e0.objectIds.length = e0.count →
      (load (normKey q) page pageSize).1 = e0.count →
      wfLoad load (normKey q) page pageSize →
      (getContentObjects load st page pageSize q).fetched = true →
      ∃ e1, (getContentObjects load st page pageSize q).contents (normKey q) = some e1 ∧
        e1.count = e0.count ∧
        e1.objectIds.length = e0.count ∧
        ∀ i, e1.objectIds[i]? =
          if (page - 1) * pageSize ≤ i ∧ i < page * pageSize then
            ((load (normKey q) page pageSize).2[i - (page - 1) * pageSize]?).map some
          else e0.objectIds[i]?) := by
  have hb : page * pageSize = (page - 1) * pageSize + pageSize := page_mul_sub page pageSize hp
  constructor
  · intro h0 hwf
    rw [gco_of_none load st page pageSize q h0]
    refine ⟨{ count := (load (normKey q) page pageSize).1,
              objectIds := mergeIds
                (gcoOldIds st (normKey q) (load (normKey q) page pageSize).1)
                (load (normKey q) page pageSize).2
                ((page - 1) * pageSize) (page * pageSize) }, ?_, rfl, ?_⟩
    · simp [gcoFetch, mapSet]
    · show (mergeIds (gcoOldIds st (normKey q) (load (normKey q) page pageSize).1)
        (load (normKey q) page pageSize).2
        ((page - 1) * pageSize) (page * pageSize)).length = (load (normKey q) page pageSize).1
      rw [hb]
      exact mergeIds_length _ _ _ _ _ (by simp [gcoOldIds, h0]) hwf
  · intro e0 h0 hlen hc hwf hF
    by_cases hinv : 0 < e0.count ∧ e0.count ≤ (page - 1) * pageSize
    · rw [gco_of_invalid load st page pageSize q e0 h0 hinv] at hF
      exact absurd hF (by simp)
    · cases hB : (jsSlice ((page - 1) * pageSize) (page * pageSize)
          e0.objectIds).all Option.isSome with
      | true =>
        rw [gco_of_hit load st page pageSize q e0 h0 hinv hB] at hF
        exact absurd hF (by simp)
      | false =>
        rw [gco_of_miss load st page pageSize q e0 h0 hinv hB]
        have hac : (page - 1) * pageSize < e0.count := by
          by_contra hca
          push_neg at hca
          rcases Nat.eq_zero_or_pos e0.count with hz | hpos
          · have hnil : e0.objectIds = [] := List.length_eq_zero.mp (by omega)
            rw [hnil] at hB
            simp [jsSlice] at hB
          · exact hinv ⟨hpos, hca⟩
        have hold : gcoOldIds st (normKey q) (load (normKey q) page pageSize).1 =
            e0.objectIds := by
          simp [gcoOldIds, h0]
        have hn : (load (normKey q) page pageSize).2.length =
            min pageSize (e0.count - (page - 1) * pageSize) := by
          rw [← hc]
          exact hwf
        refine ⟨{ count := (load (normKey q) page pageSize).1,
                  objectIds := mergeIds
                    (gcoOldIds st (normKey q) (load (normKey q) page pageSize).1)
                    (load (normKey q) page pageSize).2
                    ((page - 1) * pageSize) (page * pageSize) }, ?_, hc, ?_, ?_⟩
        · simp [gcoFetch, mapSet]
        · show (mergeIds (gcoOldIds st (normKey q) (load (normKey q) page pageSize).1)
            (load (normKey q) page pageSize).2
            ((page - 1) * pageSize) (page * pageSize)).length = e0.count
          rw [hold, hb]
          exact mergeIds_length _ _ _ _ _ hlen hn
        · intro i
          show (mergeIds (gcoOldIds st (normKey q) (load (normKey q) page pageSize).1)
            (load (normKey q) page pageSize).2
            ((page - 1) * pageSize) (page * pageSize))[i]? = _
          rw [hold, hb]
          exact mergeIds_getElem e0.objectIds (load (normKey q) page pageSize).2
            ((page - 1) * pageSize) pageSize e0.count hlen hac hn i

/-- C4, witness: first population stores a length-2 entry; refetching the
same window of an all-unknown length-2 entry overwrites exactly slots 0-1. -/
theorem sparseMerge_c4_witness :
    (∃ e1, (getContentObjects load0 stN 1 10 none).contents none = some e1 ∧
      e1.count = 2 ∧ e1.objectIds.length = e1.count) ∧
    (∃ e1, (getContentObjects load0 stU 1 10 none).contents none = some e1 ∧
      e1.count = 2 ∧ e1.objectIds.length = 2 ∧
      ∀ i, e1.objectIds[i]? =
        if (1 - 1) * 10 ≤ i ∧ i < 1 * 10 then
          (([6, 7] : List Nat)[i - (1 - 1) * 10]?).map some
        else ([none, none] : List (Option Nat))[i]?) :=
  ⟨(sparseMerge_c4 load0 stN 1 10 none (by decide)).1 rfl rfl,
   (sparseMerge_c4 load0 stU 1 10 none (by decide)).2
     { count := 2, objectIds := [none, none] } rfl rfl rfl rfl rfl⟩
